import Mathlib

/-!
# REVideoGen — verification of the natural-language specification

Shallow embedding of the REVideoGen pipeline (video_scraper.py,
gpt_description.py, heygen_integration.py, main.py) and proofs of the
spec claims about it.

Python strings are embedded as lists of characters (`PyStr`); the
Python helpers used by the repository (`str.split()`, `str.join`,
negative-index slicing, `str.replace`, `str.strip`) are embedded
directly below.  Remote HTTP interactions are replaced by oracle
parameters: a status stream stands for the sequence of job-status
responses, and a per-attempt plan stands for the outcome of the
network steps of one `create_video` attempt.
-/

namespace REVideoGen

/-- A Python string, embedded as its sequence of characters. -/
abbrev PyStr := List Char

/-- Characters treated as whitespace by Python `str.split()`. -/
def isWS (c : Char) : Bool := c.isWhitespace

/-- Accumulator worker for `pySplit`: `acc` holds the reversed current word. -/
def splitWsAux : List Char → List Char → List PyStr
  | [], acc => if acc = [] then [] else [acc.reverse]
  | c :: cs, acc =>
    if isWS c then
      if acc = [] then splitWsAux cs [] else acc.reverse :: splitWsAux cs []
    else
      splitWsAux cs (c :: acc)

/-- Python `text.split()`: the maximal whitespace-free runs of `s`, in order,
with no empty words. -/
def pySplit (s : PyStr) : List PyStr := splitWsAux s []

/-- `len(text.split())` — the word count used by `create_video`. -/
def wordCount (s : PyStr) : Nat := (pySplit s).length

/-- Python `sep.join(ws)`. -/
def joinSep (sep : PyStr) : List PyStr → PyStr
  | [] => []
  | [w] => w
  | w :: ws => w ++ sep ++ joinSep sep ws

/-- Python `l[:k]` for an `int` bound `k` (negative bounds count from the
end, clamped at the empty prefix). -/
def pySliceTo {α : Type} (l : List α) (k : Int) : List α :=
  if 0 ≤ k then l.take k.toNat else l.take (l.length - (-k).toNat)

/-- The ellipsis `_truncate_text` appends. -/
def dots : PyStr := "...".toList

/-- `HeygenIntegration._truncate_text(text, max_words)`:
`words = text.split(); if len(words) <= max_words: return text;
return " ".join(words[:max_words]) + "..."`.  `max_words` is a Python
int and can be negative at the call site in `create_video`. -/
def truncate_text (text : PyStr) (max_words : Int) : PyStr :=
  if ((pySplit text).length : Int) ≤ max_words then text
  else joinSep [' '] (pySliceTo (pySplit text) max_words) ++ dots

/-- Sanity check of the `str.split()` embedding. -/
theorem pySplit_check : pySplit "a  bc d".toList = ["a".toList, "bc".toList, "d".toList] := by decide

/-- Sanity check of `_truncate_text` on a positive bound. -/
theorem truncate_text_check_pos : truncate_text "a b c".toList 2 = "a b...".toList := by decide

/-- Sanity check of `_truncate_text` on a negative bound (Python slice
semantics). -/
theorem truncate_text_check_neg : truncate_text "a b".toList (-49) = "...".toList := by decide

/-- Sanity check: the empty string has no words. -/
theorem wordCount_check : wordCount "".toList = 0 := by decide

/-! ## `HeygenIntegration._wait_for_completion` — the polling loop

The remote `video_status.get` endpoint is replaced by an oracle
`stream : Nat → PollResp` giving the response of the k-th status check
of this call.  Network requests are instantaneous in the model; the
only passage of time is the `time.sleep` between checks, so the loop
guard `time.time() - start_time < timeout` becomes a guard on the
accumulated sleep time. -/

/-- The job status values `_wait_for_completion` compares against.
`other` stands for any status that is neither `completed`, `failed`
nor `processing` (e.g. `pending`, `waiting`). -/
inductive JobStatus
  | completed
  | failed
  | processing
  | other
deriving DecidableEq

/-- One response of the status endpoint: the `data` dict, restricted to
the fields the code reads. -/
structure PollResp where
  status : JobStatus
  video_url : Option PyStr
deriving DecidableEq

/-- Everything observable about one `_wait_for_completion` call:
`loopObs` records, for each in-loop status check that was not terminal,
the observed status and the sleep taken after it; `sawTerminal` is set
when an in-loop check observed `completed` or `failed`; `finalChecks`
counts the extra status checks made after the timeout window closed;
`checks` counts all status checks; `result` is the returned value
(`None` becomes `none`). -/
structure PollTrace where
  loopObs : List (JobStatus × Nat)
  sawTerminal : Bool
  finalChecks : Nat
  checks : Nat
  result : Option PollResp
deriving DecidableEq

/-- `HeygenIntegration._wait_for_completion(video_id, timeout)`.
While `elapsed < timeout`: check the status; on `completed` return the
data, on `failed` return `None`; otherwise sleep 10 s if the status is
`processing` and 5 s otherwise and loop.  After the window closes,
perform one final status check and return the data iff it reports
`completed`. -/
def wait_for_completion (stream : Nat → PollResp) (timeout : Nat)
    (elapsed i : Nat) : PollTrace :=
  if _h : elapsed < timeout then
    let r := stream i
    match r.status with
    | .completed => ⟨[], true, 0, 1, some r⟩
    | .failed => ⟨[], true, 0, 1, none⟩
    | .processing =>
      let t := wait_for_completion stream timeout (elapsed + 10) (i + 1)
      ⟨(.processing, 10) :: t.loopObs, t.sawTerminal, t.finalChecks, t.checks + 1, t.result⟩
    | .other =>
      let t := wait_for_completion stream timeout (elapsed + 5) (i + 1)
      ⟨(.other, 5) :: t.loopObs, t.sawTerminal, t.finalChecks, t.checks + 1, t.result⟩
  else
    let r := stream i
    ⟨[], false, 1, 1, if r.status = .completed then some r else none⟩
termination_by timeout - elapsed
decreasing_by
  all_goals omega

/-! ## `HeygenIntegration.create_video` — the retry state machine -/

/-- What happens on one attempt of the `create_video` loop, replacing
the network steps by an oracle: either some step raises a
`requests.RequestException`, or some step raises another exception
(e.g. the `ValueError`s for a missing avatar, voice, upload or video
id), or the job is submitted successfully and then polls according to
`stream`. -/
inductive AttemptPlan
  | raiseRequestExc
  | raiseOther
  | job (stream : Nat → PollResp)

/-- The mutable per-attempt state of `create_video`, recorded at the
start of the attempt: the submitted description and the polling
timeout used. -/
structure AttemptRecord where
  description : PyStr
  timeout : Nat
deriving DecidableEq

/-- How a `create_video` call ends: a completed job result, an explicit
`return None`, or a re-raised exception from the last attempt. -/
inductive CreateOutcome
  | success (r : PollResp)
  | returnedNone
  | raisedRequestExc
  | raisedOther
deriving DecidableEq

/-- Trace of a `create_video` call: the state at the start of each
performed attempt, and the final outcome. -/
structure CreateResult where
  attempts : List AttemptRecord
  outcome : CreateOutcome

/-- `max(180, current_timeout - 60)` — the timeout update after a
poll that returned `None`. -/
def nextTimeout (t : Nat) : Nat := max 180 (t - 60)

/-- `self._truncate_text(current_description, max_words=len(current_description.split()) - words_per_retry)`
with `words_per_retry = 50` — the description update after a poll that
returned `None`. -/
def degrade (d : PyStr) : PyStr := truncate_text d ((wordCount d : Int) - 50)

/-- The body of `for attempt in range(max_retries)` in
`HeygenIntegration.create_video`, with `remaining` the number of loop
iterations still to run (so `attempt < max_retries - 1` is
`0 < remaining - 1`).  On a `None` poll result the description is
degraded and the timeout reduced only when attempts remain; on an
exception the loop `continue`s with the state unchanged when attempts
remain and re-raises otherwise. -/
def createVideoAux (plan : Nat → AttemptPlan) (attempt : Nat) (d : PyStr)
    (t : Nat) : Nat → CreateResult
  | 0 => ⟨[], .returnedNone⟩
  | remaining + 1 =>
    match plan attempt with
    | .raiseRequestExc =>
      if 0 < remaining then
        let rest := createVideoAux plan (attempt + 1) d t remaining
        ⟨⟨d, t⟩ :: rest.attempts, rest.outcome⟩
      else ⟨[⟨d, t⟩], .raisedRequestExc⟩
    | .raiseOther =>
      if 0 < remaining then
        let rest := createVideoAux plan (attempt + 1) d t remaining
        ⟨⟨d, t⟩ :: rest.attempts, rest.outcome⟩
      else ⟨[⟨d, t⟩], .raisedOther⟩
    | .job stream =>
      match (wait_for_completion stream t 0 0).result with
      | some r => ⟨[⟨d, t⟩], .success r⟩
      | none =>
        if 0 < remaining then
          let rest := createVideoAux plan (attempt + 1) (degrade d) (nextTimeout t) remaining
          ⟨⟨d, t⟩ :: rest.attempts, rest.outcome⟩
        else ⟨[⟨d, t⟩], .returnedNone⟩

/-- `HeygenIntegration.create_video(video_path, description, max_retries, initial_timeout)`
(defaults `max_retries=3`, `initial_timeout=300`). -/
def create_video (plan : Nat → AttemptPlan) (description : PyStr)
    (max_retries : Nat) (initial_timeout : Nat) : CreateResult :=
  createVideoAux plan 0 description initial_timeout max_retries

/-! ## Word-level facts about `pySplit`, `joinSep` and `truncate_text` -/

/-- A proper word: nonempty and free of whitespace. -/
def WordOK (w : PyStr) : Prop := w ≠ [] ∧ ∀ c ∈ w, ¬ isWS c

/-- Every word produced by `splitWsAux` is a proper word, provided the
pending accumulator holds no whitespace. -/
theorem splitWsAux_words (s : List Char) :
    ∀ acc : List Char, (∀ c ∈ acc, ¬ isWS c) →
      ∀ w ∈ splitWsAux s acc, WordOK w := by
  induction s with
  | nil =>
    intro acc hacc w hw
    unfold splitWsAux at hw
    split at hw
    · simp at hw
    · next hne =>
      simp only [List.mem_singleton] at hw
      subst hw
      refine ⟨by simpa using hne, ?_⟩
      intro c hc
      exact hacc c (by simpa using hc)
  | cons c cs ih =>
    intro acc hacc w hw
    unfold splitWsAux at hw
    split at hw
    · split at hw
      · exact ih [] (by simp) w hw
      · next hne =>
        rcases List.mem_cons.mp hw with h | h
        · subst h
          refine ⟨by simpa using hne, ?_⟩
          intro x hx
          exact hacc x (by simpa using hx)
        · exact ih [] (by simp) w h
    · next hcws =>
      refine ih (c :: acc) ?_ w hw
      intro x hx
      rcases List.mem_cons.mp hx with h | h
      · subst h; simpa using hcws
      · exact hacc x h

/-- Every word produced by `pySplit` is a proper word. -/
theorem pySplit_words (s : PyStr) : ∀ w ∈ pySplit s, WordOK w :=
  splitWsAux_words s [] (by simp)

/-- Step equation of `splitWsAux` on the empty input. -/
theorem splitWsAux_nil (acc : List Char) :
    splitWsAux [] acc = if acc = [] then [] else [acc.reverse] := rfl

/-- Step equation of `splitWsAux` on a cons. -/
theorem splitWsAux_cons (c : Char) (cs acc : List Char) :
    splitWsAux (c :: cs) acc
      = if isWS c then
          (if acc = [] then splitWsAux cs [] else acc.reverse :: splitWsAux cs [])
        else splitWsAux cs (c :: acc) := rfl

/-- Scanning a whitespace-free word just extends the accumulator. -/
theorem splitWsAux_scan_word (w : PyStr) (hw : ∀ c ∈ w, ¬ isWS c) :
    ∀ (s acc : List Char),
      splitWsAux (w ++ s) acc = splitWsAux s (w.reverse ++ acc) := by
  induction w with
  | nil => intro s acc; simp
  | cons c w ih =>
    intro s acc
    have hc : ¬ isWS c := hw c (by simp)
    have hw' : ∀ x ∈ w, ¬ isWS x := fun x hx => hw x (by simp [hx])
    rw [List.cons_append, splitWsAux_cons, if_neg hc, ih hw' s (c :: acc)]
    simp

/-- Splitting a space-joined list of proper words recovers the list. -/
theorem pySplit_joinSep (ws : List PyStr) (h : ∀ w ∈ ws, WordOK w) :
    pySplit (joinSep [' '] ws) = ws := by
  induction ws with
  | nil => rfl
  | cons w ws ih =>
    have hwok : WordOK w := h w (by simp)
    have hrest : ∀ x ∈ ws, WordOK x := fun x hx => h x (by simp [hx])
    cases ws with
    | nil =>
      show pySplit (joinSep [' '] [w]) = [w]
      have : joinSep [' '] [w] = w ++ [] := by simp [joinSep]
      rw [this]
      show splitWsAux (w ++ []) [] = [w]
      rw [splitWsAux_scan_word w hwok.2 [] [], splitWsAux_nil,
        if_neg (by simpa using hwok.1)]
      simp
    | cons w2 ws2 =>
      have hjoin : joinSep [' '] (w :: w2 :: ws2)
          = w ++ (' ' :: joinSep [' '] (w2 :: ws2)) := by
        simp [joinSep]
      rw [hjoin]
      show splitWsAux (w ++ (' ' :: joinSep [' '] (w2 :: ws2))) [] = _
      rw [splitWsAux_scan_word w hwok.2 _ [], splitWsAux_cons,
        if_pos (by simp [isWS]), if_neg (by simpa using hwok.1)]
      have := ih hrest
      rw [show splitWsAux (joinSep [' '] (w2 :: ws2)) [] = pySplit (joinSep [' '] (w2 :: ws2)) from rfl,
        this]
      simp

/-- For a nonempty tail, `joinSep` unfolds one step. -/
theorem joinSep_cons_of_ne_nil (sep : PyStr) (x : PyStr) (l : List PyStr)
    (h : l ≠ []) : joinSep sep (x :: l) = x ++ sep ++ joinSep sep l := by
  cases l with
  | nil => exact absurd rfl h
  | cons y ys => rfl

/-- Appending a suffix to a join glues the suffix onto the last word. -/
theorem joinSep_append_last (sep suffix : PyStr) (ws : List PyStr) (w : PyStr) :
    joinSep sep (ws ++ [w]) ++ suffix = joinSep sep (ws ++ [w ++ suffix]) := by
  induction ws with
  | nil => rfl
  | cons x ws ih =>
    rw [List.cons_append, List.cons_append,
      joinSep_cons_of_ne_nil sep x (ws ++ [w]) (by simp),
      joinSep_cons_of_ne_nil sep x (ws ++ [w ++ suffix]) (by simp),
      List.append_assoc (x ++ sep), ih]

/-- The ellipsis is itself a proper word. -/
theorem dots_wordOK : WordOK dots := by
  constructor
  · decide
  · decide

/-- Splitting the ellipsis alone. -/
theorem pySplit_dots : pySplit dots = [dots] := by decide

/-- Splitting a space-join of proper words with the ellipsis appended:
the ellipsis merges into the last word. -/
theorem pySplit_joinSep_dots (ks : List PyStr) (k : PyStr)
    (h : ∀ w ∈ ks ++ [k], WordOK w) :
    pySplit (joinSep [' '] (ks ++ [k]) ++ dots) = ks ++ [k ++ dots] := by
  rw [joinSep_append_last]
  have hk : WordOK k := h k (by simp)
  have hall : ∀ x ∈ ks ++ [k ++ dots], WordOK x := by
    intro x hx
    rcases List.mem_append.mp hx with hx | hx
    · exact h x (by simp [hx])
    · simp only [List.mem_singleton] at hx
      subst hx
      refine ⟨by simp [hk.1], ?_⟩
      intro c hc
      rcases List.mem_append.mp hc with hc | hc
      · exact hk.2 c hc
      · exact dots_wordOK.2 c hc
  exact pySplit_joinSep _ hall

/-- Closed arithmetic form of the word count produced by one
degradation step on an `m`-word description (`m > 50`: the first
`m - 50` words survive; `m ≤ 50`: Python negative slicing keeps the
first `m - (50 - m)` words; an empty slice leaves just the ellipsis). -/
def truncCount (m : Nat) : Nat :=
  if 50 ≤ m then max 1 (m - 50) else max 1 (m - (50 - m))

/-- `degrade` always takes the truncating branch of `truncate_text`. -/
theorem degrade_eq (d : PyStr) :
    degrade d
      = joinSep [' '] (pySliceTo (pySplit d) ((wordCount d : Int) - 50)) ++ dots := by
  unfold degrade truncate_text
  rw [if_neg (by unfold wordCount; omega)]

/-- The number of words kept by the slice in one degradation step. -/
theorem length_slice_degrade (d : PyStr) :
    (pySliceTo (pySplit d) ((wordCount d : Int) - 50)).length
      = if 50 ≤ wordCount d then wordCount d - 50
        else wordCount d - (50 - wordCount d) := by
  unfold wordCount pySliceTo
  split <;> split <;> rw [List.length_take] <;> omega

/-- Word count after one degradation step, in closed form. -/
theorem wordCount_degrade (d : PyStr) :
    wordCount (degrade d) = truncCount (wordCount d) := by
  have hlen := length_slice_degrade d
  have hm : wordCount d = (pySplit d).length := rfl
  rw [degrade_eq]
  rcases hk : pySliceTo (pySplit d) ((wordCount d : Int) - 50) |>.eq_nil_or_concat
    with hnil | ⟨ks, k, hcat⟩
  · rw [hnil] at hlen ⊢
    have h1 : wordCount (joinSep [' '] ([] : List PyStr) ++ dots) = 1 := by
      show wordCount ([] ++ dots) = 1
      rw [List.nil_append]
      unfold wordCount
      rw [pySplit_dots]
      rfl
    rw [h1]
    simp only [List.length_nil] at hlen
    unfold truncCount
    split at hlen <;> split <;> omega
  · rw [List.concat_eq_append] at hcat
    have hksOK : ∀ w ∈ ks ++ [k], WordOK w := by
      intro w hw
      apply pySplit_words d w
      have hw' : w ∈ pySliceTo (pySplit d) ((wordCount d : Int) - 50) := by
        rw [hcat]; exact hw
      unfold pySliceTo at hw'
      split at hw' <;> exact List.mem_of_mem_take hw'
    rw [hcat] at hlen ⊢
    unfold wordCount
    rw [pySplit_joinSep_dots ks k hksOK]
    simp only [List.length_append, List.length_singleton] at hlen ⊢
    unfold truncCount
    split at hlen <;> split <;> omega

/-- One degradation step strictly shrinks any word count of at least 2. -/
theorem truncCount_lt (m : Nat) (h : 2 ≤ m) : truncCount m < m := by
  unfold truncCount
  split <;> omega

/-- Above 51 words, one degradation step removes exactly 50 words. -/
theorem truncCount_of_ge (m : Nat) (h : 51 ≤ m) : truncCount m = m - 50 := by
  unfold truncCount
  split <;> omega

/-! ## Facts about the polling loop -/

/-- If no status check ever reports a terminal state, the polling loop
returns `None` and never sees a terminal state. -/
theorem wait_for_completion_nonterminal (stream : Nat → PollResp)
    (hs : ∀ k, (stream k).status ≠ .completed ∧ (stream k).status ≠ .failed) :
    ∀ timeout elapsed i,
      (wait_for_completion stream timeout elapsed i).result = none ∧
      (wait_for_completion stream timeout elapsed i).sawTerminal = false := by
  intro timeout
  have H : ∀ n elapsed i, timeout - elapsed ≤ n →
      (wait_for_completion stream timeout elapsed i).result = none ∧
      (wait_for_completion stream timeout elapsed i).sawTerminal = false := by
    intro n
    induction n with
    | zero =>
      intro elapsed i hle
      unfold wait_for_completion
      rw [dif_neg (by omega)]
      refine ⟨?_, rfl⟩
      show (if (stream i).status = .completed then some (stream i) else none) = none
      rw [if_neg (hs i).1]
    | succ n ih =>
      intro elapsed i hle
      unfold wait_for_completion
      split
      · rcases hsi : (stream i).status with _ | _ | _ | _
        · exact absurd hsi (hs i).1
        · exact absurd hsi (hs i).2
        · simp only [hsi]
          exact ih (elapsed + 10) (i + 1) (by omega)
        · simp only [hsi]
          exact ih (elapsed + 5) (i + 1) (by omega)
      · refine ⟨?_, rfl⟩
        show (if (stream i).status = .completed then some (stream i) else none) = none
        rw [if_neg (hs i).1]
  intro elapsed i
  exact H (timeout - elapsed) elapsed i (le_refl _)

/-- Adaptive-sleep rule and single final check, over all loop starts.
Helper for the claim-level theorem. -/
theorem wait_for_completion_trace (stream : Nat → PollResp) :
    ∀ timeout elapsed i,
      (∀ p ∈ (wait_for_completion stream timeout elapsed i).loopObs,
          p.2 = if p.1 = JobStatus.processing then 10 else 5) ∧
      ((wait_for_completion stream timeout elapsed i).sawTerminal = false →
        (wait_for_completion stream timeout elapsed i).finalChecks = 1 ∧
        (wait_for_completion stream timeout elapsed i).checks
          = (wait_for_completion stream timeout elapsed i).loopObs.length + 1) := by
  intro timeout
  have H : ∀ n elapsed i, timeout - elapsed ≤ n →
      (∀ p ∈ (wait_for_completion stream timeout elapsed i).loopObs,
          p.2 = if p.1 = JobStatus.processing then 10 else 5) ∧
      ((wait_for_completion stream timeout elapsed i).sawTerminal = false →
        (wait_for_completion stream timeout elapsed i).finalChecks = 1 ∧
        (wait_for_completion stream timeout elapsed i).checks
          = (wait_for_completion stream timeout elapsed i).loopObs.length + 1) := by
    intro n
    induction n with
    | zero =>
      intro elapsed i hle
      unfold wait_for_completion
      rw [dif_neg (by omega)]
      exact ⟨by intro p hp; simp at hp, fun _ => ⟨rfl, rfl⟩⟩
    | succ n ih =>
      intro elapsed i hle
      unfold wait_for_completion
      split
      · rcases hsi : (stream i).status with _ | _ | _ | _ <;> simp only [hsi]
        · exact ⟨by intro p hp; simp at hp, by intro hst; cases hst⟩
        · exact ⟨by intro p hp; simp at hp, by intro hst; cases hst⟩
        · rcases ih (elapsed + 10) (i + 1) (by omega) with ⟨ihobs, ihfin⟩
          refine ⟨?_, ?_⟩
          · intro p hp
            rcases List.mem_cons.mp hp with rfl | hp'
            · rfl
            · exact ihobs p hp'
          · intro hst
            rcases ihfin hst with ⟨hf, hc⟩
            refine ⟨hf, ?_⟩
            show _ + 1 = _
            rw [hc]
            simp
        · rcases ih (elapsed + 5) (i + 1) (by omega) with ⟨ihobs, ihfin⟩
          refine ⟨?_, ?_⟩
          · intro p hp
            rcases List.mem_cons.mp hp with rfl | hp'
            · rfl
            · exact ihobs p hp'
          · intro hst
            rcases ihfin hst with ⟨hf, hc⟩
            refine ⟨hf, ?_⟩
            show _ + 1 = _
            rw [hc]
            simp
      · exact ⟨by intro p hp; simp at hp, fun _ => ⟨rfl, rfl⟩⟩
  intro elapsed i
  exact H (timeout - elapsed) elapsed i (le_refl _)

/-! ## Facts about the `create_video` retry loop -/

/-- The sequence of (description, timeout) states the loop passes when
every poll returns `None`. -/
def degradeStates (d : PyStr) (t : Nat) : Nat → List AttemptRecord
  | 0 => []
  | r + 1 => ⟨d, t⟩ :: degradeStates (degrade d) (nextTimeout t) r

/-- When every attempt submits a job whose poll returns `None`, the
loop performs every iteration, degrading the state each time, and
finally returns `None`. -/
theorem createVideoAux_none_trace (plan : Nat → AttemptPlan)
    (streams : Nat → Nat → PollResp)
    (hplan : ∀ n, plan n = .job (streams n))
    (hnone : ∀ n t, (wait_for_completion (streams n) t 0 0).result = none) :
    ∀ r attempt d t,
      createVideoAux plan attempt d t r = ⟨degradeStates d t r, .returnedNone⟩ := by
  intro r
  induction r with
  | zero => intro attempt d t; rfl
  | succ r ih =>
    intro attempt d t
    unfold createVideoAux
    rw [hplan attempt]
    simp only
    rw [hnone attempt t]
    rcases Nat.eq_zero_or_pos r with rfl | hr
    · rw [if_neg (by omega)]
      rfl
    · rw [if_pos hr, ih (attempt + 1) (degrade d) (nextTimeout t)]
      rfl

/-- A status stream that always reports `failed`. -/
def failedStream : Nat → PollResp := fun _ => ⟨.failed, none⟩

/-- A plan in which every attempt submits a job that reports `failed`. -/
def failedPlan : Nat → AttemptPlan := fun _ => .job failedStream

/-- A status stream that always reports `processing`. -/
def processingStream : Nat → PollResp := fun _ => ⟨.processing, none⟩

/-- A plan in which every attempt submits a job that stays `processing`. -/
def processingPlan : Nat → AttemptPlan := fun _ => .job processingStream

/-- Polling a job that reports `failed` returns `None` for every
timeout. -/
theorem wait_failedStream (t e i : Nat) :
    (wait_for_completion failedStream t e i).result = none := by
  unfold wait_for_completion
  split <;> rfl

/-- A `processing` status is never terminal. -/
theorem processingStream_nonterminal (k : Nat) :
    (processingStream k).status ≠ JobStatus.completed ∧
    (processingStream k).status ≠ JobStatus.failed := by
  refine ⟨?_, ?_⟩ <;> intro h <;> cases h

/-- Step equation of the `create_video` loop body. -/
theorem createVideoAux_succ (plan : Nat → AttemptPlan) (attempt : Nat)
    (d : PyStr) (t r : Nat) :
    createVideoAux plan attempt d t (r + 1)
      = match plan attempt with
        | .raiseRequestExc =>
          if 0 < r then
            ⟨⟨d, t⟩ :: (createVideoAux plan (attempt + 1) d t r).attempts,
             (createVideoAux plan (attempt + 1) d t r).outcome⟩
          else ⟨[⟨d, t⟩], .raisedRequestExc⟩
        | .raiseOther =>
          if 0 < r then
            ⟨⟨d, t⟩ :: (createVideoAux plan (attempt + 1) d t r).attempts,
             (createVideoAux plan (attempt + 1) d t r).outcome⟩
          else ⟨[⟨d, t⟩], .raisedOther⟩
        | .job stream =>
          match (wait_for_completion stream t 0 0).result with
          | some x => ⟨[⟨d, t⟩], .success x⟩
          | none =>
            if 0 < r then
              ⟨⟨d, t⟩ :: (createVideoAux plan (attempt + 1) (degrade d) (nextTimeout t) r).attempts,
               (createVideoAux plan (attempt + 1) (degrade d) (nextTimeout t) r).outcome⟩
            else ⟨[⟨d, t⟩], .returnedNone⟩ := rfl

/-- C1: with `max_retries = 3` and a job that reports `failed` on its
very first status check of attempt 1, `create_video` nevertheless runs
attempts 2 and 3 (`_wait_for_completion` returns `None` for a failed
job, and the retry branch of `create_video` treats every `None` as a
timeout), finally returning `None`.  This contradicts the claim that a
`failed` job is fatal and never triggers attempt 2. -/
theorem create_video_failed_job_is_retried :
    (create_video failedPlan ("a b c".toList) 3 300).attempts.length = 3 ∧
    (create_video failedPlan ("a b c".toList) 3 300).outcome = CreateOutcome.returnedNone := by
  have h := createVideoAux_none_trace failedPlan (fun _ => failedStream)
    (fun _ => rfl) (fun _ t => wait_failedStream t 0 0) 3 0 ("a b c".toList) 300
  have he : create_video failedPlan ("a b c".toList) 3 300
      = createVideoAux failedPlan 0 ("a b c".toList) 300 3 := rfl
  rw [he, h]
  refine ⟨?_, rfl⟩
  simp [degradeStates]

/-- C2 counterexample: with `max_retries = 3`, `initial_timeout = 300`
and the one-word description `"hi"`, a job that always times out leads
to submitted word counts 1, 1, 1 — not strictly decreasing. -/
theorem create_video_wordcount_not_strictly_decreasing_cex :
    ¬ List.Chain' (fun a b => a > b)
        ((create_video processingPlan ("hi".toList) 3 300).attempts.map
          (fun a => wordCount a.description)) := by
  have h := createVideoAux_none_trace processingPlan (fun _ => processingStream)
    (fun _ => rfl)
    (fun _ t => (wait_for_completion_nonterminal processingStream
      (fun k => processingStream_nonterminal k) t 0 0).1)
    3 0 ("hi".toList) 300
  have he : create_video processingPlan ("hi".toList) 3 300
      = createVideoAux processingPlan 0 ("hi".toList) 300 3 := rfl
  have hmap : (degradeStates ("hi".toList) 300 3).map
      (fun a => wordCount a.description) = [1, 1, 1] := by decide
  have hmap2 : (create_video processingPlan ("hi".toList) 3 300).attempts.map
      (fun a => wordCount a.description) = [1, 1, 1] := by
    rw [he, h]
    exact hmap
  rw [hmap2]
  intro hc
  simp only [List.chain'_cons, List.chain'_singleton, and_true] at hc
  omega

/-- C2 (amended): with `max_retries = 3`, `initial_timeout = 300`, a
description of at least 52 words, and polling that never reaches a
terminal state on any attempt, exactly 3 attempts run, the per-attempt
timeouts are 300, 240, 180 (strictly decreasing, floored at 180), the
submitted word counts are strictly decreasing, and the call returns
`None`. -/
theorem create_video_timeout_retry_degrades (plan : Nat → AttemptPlan)
    (streams : Nat → Nat → PollResp)
    (hplan : ∀ n, plan n = .job (streams n))
    (hnt : ∀ n k, (streams n k).status ≠ JobStatus.completed ∧
        (streams n k).status ≠ JobStatus.failed)
    (d : PyStr) (hw : 52 ≤ wordCount d) :
    (create_video plan d 3 300).attempts.map (fun a => a.timeout) = [300, 240, 180] ∧
    (create_video plan d 3 300).attempts.map (fun a => wordCount a.description)
      = [wordCount d, wordCount d - 50, truncCount (wordCount d - 50)] ∧
    List.Chain' (fun a b => a > b)
      ((create_video plan d 3 300).attempts.map (fun a => wordCount a.description)) ∧
    (create_video plan d 3 300).attempts.length = 3 ∧
    (create_video plan d 3 300).outcome = CreateOutcome.returnedNone := by
  have h := createVideoAux_none_trace plan streams hplan
    (fun n t => (wait_for_completion_nonterminal (streams n) (hnt n) t 0 0).1)
    3 0 d 300
  have he : create_video plan d 3 300 = createVideoAux plan 0 d 300 3 := rfl
  have ht1 : nextTimeout 300 = 240 := by decide
  have ht2 : nextTimeout 240 = 180 := by decide
  have hw1 : wordCount (degrade d) = wordCount d - 50 := by
    rw [wordCount_degrade, truncCount_of_ge _ (by omega)]
  have hw2 : wordCount (degrade (degrade d)) = truncCount (wordCount d - 50) := by
    rw [wordCount_degrade, hw1]
  rw [he, h]
  refine ⟨?_, ?_, ?_, ?_, rfl⟩
  · simp only [degradeStates, List.map_cons, List.map_nil, ht1, ht2]
  · simp only [degradeStates, List.map_cons, List.map_nil]
    rw [hw1, hw2]
  · simp only [degradeStates, List.map_cons, List.map_nil, hw1, hw2,
      List.chain'_cons, List.chain'_singleton, and_true]
    exact ⟨by omega, truncCount_lt _ (by omega)⟩
  · simp [degradeStates]

/-- A 52-word description. -/
def d52 : PyStr := joinSep [' '] (List.replicate 52 ['a'])

/-- Witness for the amended C2 theorem at a concrete 52-word
description and an always-`processing` job. -/
theorem create_video_timeout_retry_degrades_witness :
    (create_video processingPlan d52 3 300).attempts.map (fun a => a.timeout)
      = [300, 240, 180] ∧
    (create_video processingPlan d52 3 300).attempts.map
        (fun a => wordCount a.description)
      = [wordCount d52, wordCount d52 - 50, truncCount (wordCount d52 - 50)] ∧
    List.Chain' (fun a b => a > b)
      ((create_video processingPlan d52 3 300).attempts.map
        (fun a => wordCount a.description)) ∧
    (create_video processingPlan d52 3 300).attempts.length = 3 ∧
    (create_video processingPlan d52 3 300).outcome = CreateOutcome.returnedNone :=
  create_video_timeout_retry_degrades processingPlan (fun _ => processingStream)
    (fun _ => rfl) (fun _ k => processingStream_nonterminal k) d52 (by decide)

/-- Modelled from the spec claim wording for C3: shrink the description
by removing exactly its last 50 words, never going below the empty
string. -/
def removeLast50 (d : PyStr) : PyStr :=
  joinSep [' '] ((pySplit d).take ((pySplit d).length - 50))

/-- A 30-word description. -/
def d30 : PyStr := joinSep [' '] (List.replicate 30 ['a'])

/-- C3 counterexample: on a 30-word description the degradation step of
the code keeps 10 words (Python negative slicing) and appends an
ellipsis, while removing the last 50 words would leave the empty
string. -/
theorem degrade_not_removeLast50_cex :
    degrade d30 ≠ removeLast50 d30 ∧
    wordCount (degrade d30) = 10 ∧
    wordCount (removeLast50 d30) = 0 := by
  refine ⟨by decide, by decide, by decide⟩

/-- C3 (amended): the degradation step rebuilds the description from the
Python slice `words[:m-50]` (a prefix of the word list, of length
`m - 50` when `m ≥ 50` and `m - (50 - m)` otherwise) joined by single
spaces with an ellipsis appended, so its word count is `truncCount m`;
and the timeout update is `max(180, t - 60)`, hence floored at 180 and
equal to `t - 60` whenever `t ≥ 240`. -/
theorem degrade_step_characterization (d : PyStr) (t : Nat) :
    degrade d
      = joinSep [' '] (pySliceTo (pySplit d) ((wordCount d : Int) - 50)) ++ dots ∧
    List.IsPrefix (pySliceTo (pySplit d) ((wordCount d : Int) - 50)) (pySplit d) ∧
    (pySliceTo (pySplit d) ((wordCount d : Int) - 50)).length
      = (if 50 ≤ wordCount d then wordCount d - 50
         else wordCount d - (50 - wordCount d)) ∧
    wordCount (degrade d) = truncCount (wordCount d) ∧
    nextTimeout t = max 180 (t - 60) ∧
    180 ≤ nextTimeout t ∧
    (240 ≤ t → nextTimeout t = t - 60) := by
  refine ⟨degrade_eq d, ?_, length_slice_degrade d, wordCount_degrade d, rfl, ?_, ?_⟩
  · unfold pySliceTo
    split
    · exact List.take_prefix _ _
    · exact List.take_prefix _ _
  · unfold nextTimeout
    omega
  · intro h
    unfold nextTimeout
    omega

/-- Witness for the amended C3 theorem at a concrete description and
timeout. -/
theorem degrade_step_characterization_witness :
    wordCount (degrade ("hi".toList)) = truncCount (wordCount ("hi".toList)) ∧
    nextTimeout 300 = 300 - 60 :=
  ⟨(degrade_step_characterization ("hi".toList) 300).2.2.2.1,
   (degrade_step_characterization ("hi".toList) 300).2.2.2.2.2.2 (by omega)⟩

/-- C10: when an attempt raises a transport-level error (or any other
exception) and attempts remain, the loop continues with the same
description and the same timeout; the degraded state is used only when
the attempt polled a submitted job and the poll returned `None`. -/
theorem create_video_transport_retry_frame (plan : Nat → AttemptPlan)
    (attempt : Nat) (d : PyStr) (t : Nat) (r : Nat) (hr : 0 < r) :
    ((plan attempt = AttemptPlan.raiseRequestExc ∨
        plan attempt = AttemptPlan.raiseOther) →
      createVideoAux plan attempt d t (r + 1)
        = ⟨⟨d, t⟩ :: (createVideoAux plan (attempt + 1) d t r).attempts,
           (createVideoAux plan (attempt + 1) d t r).outcome⟩) ∧
    (∀ stream, plan attempt = AttemptPlan.job stream →
      (wait_for_completion stream t 0 0).result = none →
      createVideoAux plan attempt d t (r + 1)
        = ⟨⟨d, t⟩ :: (createVideoAux plan (attempt + 1) (degrade d) (nextTimeout t) r).attempts,
           (createVideoAux plan (attempt + 1) (degrade d) (nextTimeout t) r).outcome⟩) := by
  constructor
  · intro hp
    rcases hp with hp | hp <;>
      simp only [createVideoAux_succ, hp, hr, if_true]
  · intro stream hp hnone
    simp only [createVideoAux_succ, hp, hnone, hr, if_true]

/-- A plan whose first attempt raises a transport error and whose later
attempts submit an always-`processing` job. -/
def mixedPlan : Nat → AttemptPlan :=
  fun n => if n = 0 then AttemptPlan.raiseRequestExc else AttemptPlan.job processingStream

/-- Witness for the C10 theorem: a transport error on attempt 1 leaves
the description and timeout of attempt 2 unchanged. -/
theorem create_video_transport_retry_frame_witness :
    createVideoAux mixedPlan 0 ("hi".toList) 300 (2 + 1)
      = ⟨⟨"hi".toList, 300⟩ :: (createVideoAux mixedPlan 1 ("hi".toList) 300 2).attempts,
         (createVideoAux mixedPlan 1 ("hi".toList) 300 2).outcome⟩ :=
  (create_video_transport_retry_frame mixedPlan 0 ("hi".toList) 300 2 (by omega)).1
    (Or.inl rfl)

/-- A status stream that always reports an unnamed non-terminal status. -/
def otherStream : Nat → PollResp := fun _ => ⟨.other, none⟩

/-- An unnamed status is never terminal. -/
theorem otherStream_nonterminal (k : Nat) :
    (otherStream k).status ≠ JobStatus.completed ∧
    (otherStream k).status ≠ JobStatus.failed := by
  refine ⟨?_, ?_⟩ <;> intro h <;> cases h

/-- Witness for the C5 theorem on a concrete non-terminating run with a
7-second window (two in-loop checks, then the single final check). -/
theorem wait_for_completion_trace_witness :
    (∀ p ∈ (wait_for_completion otherStream 7 0 0).loopObs,
        p.2 = if p.1 = JobStatus.processing then 10 else 5) ∧
    ((wait_for_completion otherStream 7 0 0).finalChecks = 1 ∧
      (wait_for_completion otherStream 7 0 0).checks
        = (wait_for_completion otherStream 7 0 0).loopObs.length + 1) :=
  ⟨(wait_for_completion_trace otherStream 7 0 0).1,
   (wait_for_completion_trace otherStream 7 0 0).2
     ((wait_for_completion_nonterminal otherStream otherStream_nonterminal 7 0 0).2)⟩

/-! ## `VideoScraper._get_best_video_url` (video_scraper.py)

Python `sorted(video_files, key=lambda x: x["width"] * x["height"],
reverse=True)` is a stable sort: among equal products the original
order is preserved.  It is embedded as the stable descending insertion
sort `sortByAreaDesc`. -/

/-- One entry of a Pexels `video_files` rendition list, restricted to
the fields the code reads. -/
structure VideoFile where
  width : Nat
  height : Nat
  link : PyStr
deriving DecidableEq

/-- The sort key `x["width"] * x["height"]`. -/
def area (f : VideoFile) : Nat := f.width * f.height

/-- Insert into a descending-by-area list, placing the new element
before the first entry of no larger area (stability: an earlier
element precedes equal-area later ones). -/
def insertByArea (x : VideoFile) : List VideoFile → List VideoFile
  | [] => [x]
  | y :: ys => if area y ≤ area x then x :: y :: ys else y :: insertByArea x ys

/-- Stable descending sort by area — the embedding of
`sorted(video_files, key=..., reverse=True)`. -/
def sortByAreaDesc : List VideoFile → List VideoFile
  | [] => []
  | x :: xs => insertByArea x (sortByAreaDesc xs)

/-- `VideoScraper._get_best_video_url(video)`: sort the renditions by
descending area and return the first link, or `None` when the list is
empty. -/
def get_best_video_url (video_files : List VideoFile) : Option PyStr :=
  match sortByAreaDesc video_files with
  | [] => none
  | b :: _ => some b.link

/-- Specification-side selector: the first element of the list whose
area no later element strictly exceeds and no element exceeds at all —
computed directly as a fold over the original order. -/
def pickFirstMax : List VideoFile → Option VideoFile
  | [] => none
  | x :: xs =>
    match pickFirstMax xs with
    | none => some x
    | some b => some (if area b ≤ area x then x else b)

/-- `insertByArea` never returns the empty list. -/
theorem insertByArea_ne_nil (x : VideoFile) (l : List VideoFile) :
    insertByArea x l ≠ [] := by
  cases l with
  | nil => simp [insertByArea]
  | cons y ys =>
    unfold insertByArea
    split <;> simp

/-- `sortByAreaDesc` is empty only on the empty list. -/
theorem sortByAreaDesc_eq_nil (l : List VideoFile) :
    sortByAreaDesc l = [] ↔ l = [] := by
  cases l with
  | nil => simp [sortByAreaDesc]
  | cons x xs =>
    simp only [sortByAreaDesc]
    constructor
    · intro h; exact absurd h (insertByArea_ne_nil x _)
    · intro h; cases h

/-- `pickFirstMax` is `none` only on the empty list. -/
theorem pickFirstMax_eq_none (l : List VideoFile) :
    pickFirstMax l = none ↔ l = [] := by
  cases l with
  | nil => simp [pickFirstMax]
  | cons x xs =>
    simp only [pickFirstMax]
    cases pickFirstMax xs <;> simp

/-- Head of an insertion: the inserted element or the old head,
whichever wins (ties to the inserted element exactly when it has at
least the head's area). -/
theorem head_insertByArea (x : VideoFile) (l : List VideoFile) :
    (insertByArea x l).head?
      = some (match l.head? with
              | none => x
              | some y => if area y ≤ area x then x else y) := by
  cases l with
  | nil => rfl
  | cons y ys =>
    unfold insertByArea
    by_cases hle : area y ≤ area x
    · rw [if_pos hle]
      simp [hle]
    · rw [if_neg hle]
      simp [hle]

/-- The head of the stable descending sort is the first maximum. -/
theorem head_sortByAreaDesc (l : List VideoFile) :
    (sortByAreaDesc l).head? = pickFirstMax l := by
  induction l with
  | nil => rfl
  | cons x xs ih =>
    simp only [sortByAreaDesc, pickFirstMax]
    rw [head_insertByArea]
    cases h : pickFirstMax xs with
    | none =>
      have hx : xs = [] := (pickFirstMax_eq_none xs).mp h
      subst hx
      rfl
    | some b =>
      have hb : (sortByAreaDesc xs).head? = some b := by rw [ih, h]
      rcases hs : sortByAreaDesc xs with _ | ⟨c, cs⟩
      · rw [hs] at hb; cases hb
      · rw [hs] at hb
        simp only [List.head?_cons, Option.some.injEq] at hb
        subst hb
        rfl

/-- `pickFirstMax` returns an element of the list. -/
theorem pickFirstMax_mem (l : List VideoFile) :
    ∀ b, pickFirstMax l = some b → b ∈ l := by
  induction l with
  | nil => intro b h; cases h
  | cons x xs ih =>
    intro b h
    simp only [pickFirstMax] at h
    cases h' : pickFirstMax xs with
    | none =>
      rw [h'] at h
      simp only [Option.some.injEq] at h
      subst h
      simp
    | some c =>
      rw [h'] at h
      simp only [Option.some.injEq] at h
      subst h
      by_cases hle : area c ≤ area x
      · rw [if_pos hle]; simp
      · rw [if_neg hle]; simp [ih c h']

/-- `pickFirstMax` returns an element of maximal area. -/
theorem pickFirstMax_max (l : List VideoFile) :
    ∀ b, pickFirstMax l = some b → ∀ f ∈ l, area f ≤ area b := by
  induction l with
  | nil => intro b h; cases h
  | cons x xs ih =>
    intro b h
    simp only [pickFirstMax] at h
    cases h' : pickFirstMax xs with
    | none =>
      have hx : xs = [] := (pickFirstMax_eq_none xs).mp h'
      subst hx
      rw [h'] at h
      simp only [Option.some.injEq] at h
      subst h
      intro f hf
      rcases List.mem_cons.mp hf with rfl | hf'
      · exact le_refl _
      · cases hf'
    | some c =>
      rw [h'] at h
      simp only [Option.some.injEq] at h
      subst h
      intro f hf
      by_cases hle : area c ≤ area x
      · rw [if_pos hle]
        rcases List.mem_cons.mp hf with rfl | hf'
        · exact le_refl _
        · exact le_trans (ih c h' f hf') hle
      · rw [if_neg hle]
        rcases List.mem_cons.mp hf with rfl | hf'
        · omega
        · exact ih c h' f hf'

/-- `pickFirstMax` returns the first-encountered maximum: everything
strictly before it in the list has strictly smaller area. -/
theorem pickFirstMax_first (l : List VideoFile) :
    ∀ b, pickFirstMax l = some b →
      ∃ l₁ l₂, l = l₁ ++ b :: l₂ ∧ ∀ f ∈ l₁, area f < area b := by
  induction l with
  | nil => intro b h; cases h
  | cons x xs ih =>
    intro b h
    simp only [pickFirstMax] at h
    cases h' : pickFirstMax xs with
    | none =>
      rw [h'] at h
      simp only [Option.some.injEq] at h
      subst h
      exact ⟨[], xs, rfl, by simp⟩
    | some c =>
      rw [h'] at h
      simp only [Option.some.injEq] at h
      by_cases hle : area c ≤ area x
      · rw [if_pos hle] at h
        subst h
        exact ⟨[], xs, rfl, by simp⟩
      · rw [if_neg hle] at h
        subst h
        rcases ih c h' with ⟨l₁, l₂, hsplit, hlt⟩
        refine ⟨x :: l₁, l₂, by rw [hsplit]; rfl, ?_⟩
        intro f hf
        rcases List.mem_cons.mp hf with rfl | hf'
        · omega
        · exact hlt f hf'

/-- The rendition list of the spec example, sizes
(640, 360), (1920, 1080), (1280, 720). -/
def exampleFiles : List VideoFile :=
  [⟨640, 360, "u360".toList⟩, ⟨1920, 1080, "u1080".toList⟩, ⟨1280, 720, "u720".toList⟩]

/-- C7: on every nonempty rendition list, `_get_best_video_url` returns
the link of an element of maximal width×height area that is the first
such element in encounter order; on the spec example it picks the
1920×1080 rendition. -/
theorem get_best_video_url_spec :
    (∀ video_files : List VideoFile, video_files ≠ [] →
      ∃ b, pickFirstMax video_files = some b ∧
        get_best_video_url video_files = some b.link ∧
        b ∈ video_files ∧
        (∀ f ∈ video_files, area f ≤ area b) ∧
        (∃ l₁ l₂, video_files = l₁ ++ b :: l₂ ∧ ∀ f ∈ l₁, area f < area b)) ∧
    get_best_video_url exampleFiles = some ("u1080".toList) := by
  constructor
  · intro files hne
    rcases hs : sortByAreaDesc files with _ | ⟨b, bs⟩
    · exact absurd ((sortByAreaDesc_eq_nil files).mp hs) hne
    · have hb : pickFirstMax files = some b := by
        rw [← head_sortByAreaDesc, hs]
        rfl
      refine ⟨b, hb, ?_, pickFirstMax_mem files b hb,
        pickFirstMax_max files b hb, pickFirstMax_first files b hb⟩
      unfold get_best_video_url
      rw [hs]
  · decide

/-- Witness for the C7 theorem: applying the general part to the spec
example list. -/
theorem get_best_video_url_spec_witness :
    ∃ b, pickFirstMax exampleFiles = some b ∧
      get_best_video_url exampleFiles = some b.link ∧
      b ∈ exampleFiles ∧
      (∀ f ∈ exampleFiles, area f ≤ area b) ∧
      (∃ l₁ l₂, exampleFiles = l₁ ++ b :: l₂ ∧ ∀ f ∈ l₁, area f < area b) :=
  get_best_video_url_spec.1 exampleFiles (by decide)

/-! ## `HeygenIntegration._get_first_available_voice` (heygen_integration.py) -/

/-- One entry of the voice listing, restricted to the fields the code
reads (`v["voice_id"]`, `v.get("language_code", "")`). -/
structure Voice where
  voice_id : PyStr
  language_code : PyStr
deriving DecidableEq

/-- The generator predicate `v.get("language_code", "").startswith("en")`. -/
def isEnglishVoice (v : Voice) : Bool := ("en".toList).isPrefixOf v.language_code

/-- `HeygenIntegration._get_first_available_voice`, given the parsed
`voices` list: `english_voice = next((v["voice_id"] for v in voices if
v.get("language_code","").startswith("en")), None); voice_id =
english_voice if english_voice else voices[0].get("voice_id")`.  An
empty listing returns `None`; note the Python truthiness test sends an
empty-string `english_voice` to the fallback as well. -/
def get_first_available_voice (voices : List Voice) : Option PyStr :=
  match voices with
  | [] => none
  | v0 :: _ =>
    match (voices.find? isEnglishVoice).map (fun v => v.voice_id) with
    | some s => some (if s = [] then v0.voice_id else s)
    | none => some v0.voice_id

/-- A listing whose first (and only) English voice has the empty string
as its id. -/
def cexVoices : List Voice :=
  [⟨"x".toList, "fr".toList⟩, ⟨[], "en-US".toList⟩]

/-- C8 counterexample: on `cexVoices` the first entry with an
`en`-prefixed language code is the second one and its voice id is the
empty string, yet the function returns the id of the first entry
overall (`"x"`), not that empty id — the Python truthiness test on
`english_voice` discards it. -/
theorem get_first_available_voice_cex :
    (cexVoices.find? isEnglishVoice).map (fun v => v.voice_id) = some [] ∧
    get_first_available_voice cexVoices ≠ some [] ∧
    get_first_available_voice cexVoices = some ("x".toList) := by
  refine ⟨by decide, by decide, by decide⟩

/-- C8 (amended): on a nonempty listing, when the first `en`-prefixed
entry exists and its id is a non-empty string the function returns that
id (regardless of the entry's position); when the first `en`-prefixed
entry has the empty string as id, or when no entry matches, it returns
the first entry's id. -/
theorem get_first_available_voice_spec (voices : List Voice)
    (v0 : Voice) (rest : List Voice) (hv : voices = v0 :: rest) :
    (∀ v, voices.find? isEnglishVoice = some v → v.voice_id ≠ [] →
      get_first_available_voice voices = some v.voice_id) ∧
    (∀ v, voices.find? isEnglishVoice = some v → v.voice_id = [] →
      get_first_available_voice voices = some v0.voice_id) ∧
    (voices.find? isEnglishVoice = none →
      get_first_available_voice voices = some v0.voice_id) := by
  subst hv
  refine ⟨?_, ?_, ?_⟩
  · intro v hf hne
    unfold get_first_available_voice
    rw [hf]
    simp only [Option.map_some']
    rw [if_neg hne]
  · intro v hf he
    unfold get_first_available_voice
    rw [hf]
    simp only [Option.map_some']
    rw [if_pos he]
  · intro hf
    unfold get_first_available_voice
    rw [hf]
    rfl

/-- The spec example listing: language codes fr, en-US, de. -/
def exampleVoices : List Voice :=
  [⟨"idf".toList, "fr".toList⟩, ⟨"ide".toList, "en-US".toList⟩,
   ⟨"idd".toList, "de".toList⟩]

/-- Witness for the amended C8 theorem on the spec example: the en-US
entry is selected although it is not first. -/
theorem get_first_available_voice_spec_witness :
    get_first_available_voice exampleVoices = some ("ide".toList) :=
  (get_first_available_voice_spec exampleVoices
      ⟨"idf".toList, "fr".toList⟩ _ rfl).1
    ⟨"ide".toList, "en-US".toList⟩ (by decide) (by decide)

/-! ## `DescriptionGenerator` (gpt_description.py)

The local language model invocation is replaced by an oracle
`generated : Option PyStr` — `none` when the pipeline call raises, and
`some g` for the raw `generated_text` it produces. -/

/-- The `adjectives` lookup of `_generate_fallback_description`:
`adjectives.get(f, f)`. -/
def adjectives (f : PyStr) : PyStr :=
  if f = "spacious".toList then "expansive".toList
  else if f = "modern".toList then "contemporary".toList
  else if f = "bright".toList then "sun-filled".toList
  else if f = "private".toList then "secluded".toList
  else if f = "peaceful".toList then "tranquil".toList
  else if f = "landscaped".toList then "meticulously maintained".toList
  else f

/-- `DescriptionGenerator._generate_fallback_description(room_type, features)`. -/
def generate_fallback_description (room_type : PyStr) (features : List PyStr) : PyStr :=
  "Welcome to this exceptional ".toList ++ room_type ++ ", where ".toList
    ++ joinSep (", ".toList) (features.map adjectives)
    ++ " features create an unforgettable living space. This carefully designed area exemplifies luxury living at its finest.".toList

/-- The prompt `generate_description` builds and later strips from the
model output. -/
def promptFor (room_type : PyStr) (features : List PyStr) : PyStr :=
  "Write a luxurious real estate description for a ".toList ++ room_type
    ++ " with these features: ".toList ++ joinSep (", ".toList) features
    ++ ". The description should be engaging and highlight the best aspects.\n\nDescription:".toList

/-- Python `s.replace(pat, "")`: delete every left-to-right
non-overlapping occurrence of `pat`.  (The guard for an empty pattern
is never exercised: the prompt is nonempty.) -/
def pyReplaceEmpty (s pat : List Char) : List Char :=
  if _hpat : pat = [] then s
  else
    match s with
    | [] => []
    | c :: cs =>
      if pat.isPrefixOf (c :: cs) then pyReplaceEmpty ((c :: cs).drop pat.length) pat
      else c :: pyReplaceEmpty cs pat
termination_by s.length
decreasing_by
  · have hp : 0 < pat.length := List.length_pos.mpr _hpat
    simp only [List.length_drop, List.length_cons]
    omega
  · simp

/-- Python `s.strip()`. -/
def pyStrip (s : PyStr) : PyStr :=
  ((s.dropWhile fun c => isWS c).reverse.dropWhile fun c => isWS c).reverse

/-- `DescriptionGenerator.generate_description(room_type, features)`:
build the prompt, run the model (`generated`), strip the prompt echo,
and fall back to the deterministic template when the result is shorter
than 20 characters or when generation raised. -/
def generate_description (room_type : PyStr) (features : List PyStr)
    (generated : Option PyStr) : PyStr :=
  match generated with
  | none => generate_fallback_description room_type features
  | some g =>
    let description := pyStrip (pyReplaceEmpty g (promptFor room_type features))
    if description.length < 20 then generate_fallback_description room_type features
    else description

/-- Every member of a joined list is an infix of the join. -/
theorem mem_joinSep_infix (sep : PyStr) (l : List PyStr) :
    ∀ w ∈ l, ∃ a b, a ++ w ++ b = joinSep sep l := by
  induction l with
  | nil => intro w hw; cases hw
  | cons x xs ih =>
    intro w hw
    rcases List.mem_cons.mp hw with rfl | hw'
    · cases xs with
      | nil => exact ⟨[], [], by simp [joinSep]⟩
      | cons y ys =>
        exact ⟨[], sep ++ joinSep sep (y :: ys),
          by rw [joinSep_cons_of_ne_nil sep w (y :: ys) (by simp)]; simp⟩
    · have hne : xs ≠ [] := by intro h; rw [h] at hw'; cases hw'
      rcases ih w hw' with ⟨a, b, hab⟩
      refine ⟨x ++ sep ++ a, b, ?_⟩
      rw [joinSep_cons_of_ne_nil sep x xs hne, ← hab]
      simp [List.append_assoc]

/-- The fallback description is never the empty string. -/
theorem generate_fallback_description_ne_nil (room_type : PyStr)
    (features : List PyStr) :
    generate_fallback_description room_type features ≠ [] := by
  intro h
  have hlen := congrArg List.length h
  unfold generate_fallback_description at hlen
  have h1 : ("Welcome to this exceptional ".toList : List Char).length = 28 := by decide
  simp only [List.length_append, List.length_nil] at hlen
  omega

/-- `generate_description` never returns the empty string. -/
theorem generate_description_ne_nil (room_type : PyStr)
    (features : List PyStr) (generated : Option PyStr) :
    generate_description room_type features generated ≠ [] := by
  unfold generate_description
  cases generated with
  | none => exact generate_fallback_description_ne_nil room_type features
  | some g =>
    simp only
    split
    · exact generate_fallback_description_ne_nil room_type features
    · next hge =>
      intro h
      rw [h] at hge
      simp at hge

/-- C9: for every feature list (the empty one included) the fallback
description is non-empty and contains every feature, each substituted
through the `adjectives` table or passed through unchanged. -/
theorem generate_fallback_description_contains (room_type : PyStr)
    (features : List PyStr) :
    generate_fallback_description room_type features ≠ [] ∧
    ∀ f ∈ features, ∃ a b,
      a ++ adjectives f ++ b = generate_fallback_description room_type features := by
  refine ⟨generate_fallback_description_ne_nil room_type features, ?_⟩
  intro f hf
  rcases mem_joinSep_infix (", ".toList) (features.map adjectives)
    (adjectives f) (List.mem_map_of_mem _ hf) with ⟨a, b, hab⟩
  refine ⟨"Welcome to this exceptional ".toList ++ room_type ++ ", where ".toList ++ a,
    b ++ " features create an unforgettable living space. This carefully designed area exemplifies luxury living at its finest.".toList, ?_⟩
  unfold generate_fallback_description
  rw [← hab]
  simp [List.append_assoc]

/-- Witness for the C9 theorem at a concrete room and feature list. -/
theorem generate_fallback_description_contains_witness :
    generate_fallback_description ("garden".toList) ["modern".toList] ≠ [] ∧
    ∃ a b, a ++ adjectives ("modern".toList) ++ b
      = generate_fallback_description ("garden".toList) ["modern".toList] :=
  ⟨(generate_fallback_description_contains ("garden".toList) ["modern".toList]).1,
   (generate_fallback_description_contains ("garden".toList) ["modern".toList]).2
     ("modern".toList) (by simp)⟩

/-- C6: `generate_description` is total (a function into strings) and
falls back to the deterministic template exactly when generation raised
or the stripped model output is shorter than 20 characters; otherwise
it returns the stripped output. -/
theorem generate_description_total_fallback (room_type : PyStr)
    (features : List PyStr) (generated : Option PyStr) :
    ((generated = none ∨ ∃ g, generated = some g ∧
        (pyStrip (pyReplaceEmpty g (promptFor room_type features))).length < 20) →
      generate_description room_type features generated
        = generate_fallback_description room_type features) ∧
    (generate_description room_type features generated
        = generate_fallback_description room_type features ∨
      ∃ g, generated = some g ∧
        generate_description room_type features generated
          = pyStrip (pyReplaceEmpty g (promptFor room_type features)) ∧
        20 ≤ (pyStrip (pyReplaceEmpty g (promptFor room_type features))).length) := by
  cases generated with
  | none => exact ⟨fun _ => rfl, Or.inl rfl⟩
  | some g =>
    constructor
    · intro h
      rcases h with h | ⟨g', hg', hlen⟩
      · cases h
      · simp only [Option.some.injEq] at hg'
        subst hg'
        unfold generate_description
        simp only
        rw [if_pos hlen]
    · by_cases hlen :
        (pyStrip (pyReplaceEmpty g (promptFor room_type features))).length < 20
      · left
        unfold generate_description
        simp only
        rw [if_pos hlen]
      · right
        refine ⟨g, rfl, ?_, by omega⟩
        unfold generate_description
        simp only
        rw [if_neg hlen]

/-- Witness for the C6 theorem: a raised generation falls back to the
template. -/
theorem generate_description_total_fallback_witness :
    generate_description ("garden".toList) ["modern".toList] none
      = generate_fallback_description ("garden".toList) ["modern".toList] :=
  (generate_description_total_fallback ("garden".toList) ["modern".toList] none).1
    (Or.inl rfl)

/-! ## `RealEstateVideoPipeline.process_room` (main.py)

The scraper search result, the download result and the model output
are oracles; the Heygen call is the `create_video` model above (with
its defaults `max_retries=3`, `initial_timeout=300`). -/

/-- One entry of `VideoScraper.search_videos`, restricted to the field
`process_room` reads. -/
structure VideoData where
  download_url : Option PyStr
deriving DecidableEq

/-- Status of a room result. -/
inductive RoomStatus
  | success
  | failed
deriving DecidableEq

/-- The per-room result dict of `process_room` (absent dict keys are
`none`). -/
structure RoomResult where
  room_type : PyStr
  features : List PyStr
  description : Option PyStr
  video_url : Option PyStr
  status : RoomStatus
  error : Option PyStr

/-- `RealEstateVideoPipeline.process_room(room_type, features)`: search,
download, describe, render — any stage failure (empty search result,
failed download, empty description, a `None` or an exception from
`create_video`) is caught and converted into a `failed` record with an
error message; full success yields a `success` record carrying the
description and the rendered video url. -/
def process_room (room_type : PyStr) (features : List PyStr)
    (videos : List VideoData) (downloadRes : Option PyStr)
    (generated : Option PyStr) (plan : Nat → AttemptPlan) : RoomResult :=
  match videos with
  | [] =>
    ⟨room_type, features, none, none, .failed,
      some ("No videos found for ".toList ++ room_type)⟩
  | _ :: _ =>
    match downloadRes with
    | none =>
      ⟨room_type, features, none, none, .failed,
        some ("Failed to download video for ".toList ++ room_type)⟩
    | some _ =>
      let description := generate_description room_type features generated
      if description = [] then
        ⟨room_type, features, none, none, .failed,
          some ("Failed to generate description for ".toList ++ room_type)⟩
      else
        match (create_video plan description 3 300).outcome with
        | .success r =>
          ⟨room_type, features, some description, r.video_url, .success, none⟩
        | .returnedNone =>
          ⟨room_type, features, none, none, .failed,
            some ("Failed to create Heygen video for ".toList ++ room_type)⟩
        | .raisedRequestExc =>
          ⟨room_type, features, none, none, .failed,
            some ("Network error during video creation".toList)⟩
        | .raisedOther =>
          ⟨room_type, features, none, none, .failed,
            some ("Error in video creation".toList)⟩

/-- C4: a room result is `success` exactly when a downloaded video, a
non-empty description and a completed render job all exist; every
failure of any stage yields a `failed` record that carries an error
message (never an uncaught exception — `process_room` is total and
every result is `success` or `failed`). -/
theorem process_room_spec (room_type : PyStr) (features : List PyStr)
    (videos : List VideoData) (downloadRes : Option PyStr)
    (generated : Option PyStr) (plan : Nat → AttemptPlan) :
    ((process_room room_type features videos downloadRes generated plan).status
        = RoomStatus.success ↔
      videos ≠ [] ∧ downloadRes.isSome ∧
      generate_description room_type features generated ≠ [] ∧
      ∃ res, (create_video plan (generate_description room_type features generated)
          3 300).outcome = CreateOutcome.success res) ∧
    ((process_room room_type features videos downloadRes generated plan).status
        = RoomStatus.failed →
      (process_room room_type features videos downloadRes generated plan).error.isSome) ∧
    ((process_room room_type features videos downloadRes generated plan).status
        = RoomStatus.success ∨
     (process_room room_type features videos downloadRes generated plan).status
        = RoomStatus.failed) := by
  cases videos with
  | nil => simp [process_room]
  | cons v vs =>
    cases downloadRes with
    | none => simp [process_room]
    | some p =>
      by_cases hd : generate_description room_type features generated = []
      · unfold process_room
        simp only
        rw [if_pos hd]
        simp [hd]
      · unfold process_room
        simp only
        rw [if_neg hd]
        cases ho : (create_video plan (generate_description room_type features generated)
            3 300).outcome with
        | success r =>
          simp [hd, ho]
        | returnedNone => simp [hd, ho]
        | raisedRequestExc => simp [hd, ho]
        | raisedOther => simp [hd, ho]

/-- Witness for the C4 theorem: an empty search result yields a failed
record with an error message. -/
theorem process_room_spec_witness :
    (process_room ("garden".toList) [] [] none none failedPlan).error.isSome :=
  (process_room_spec ("garden".toList) [] [] none none failedPlan).2.1 (by decide)

end REVideoGen
